import Mathlib

set_option maxRecDepth 8000

/-! Shallow embedding of the remarkable-katex-plus plugin: the delimiter
    scanners (`parseInlineKatex`, `parseBlockKatex`), the plugin setup from
    `index.js`, and the markup normalizer (`processAriaHidden`).
    JS strings are `List Char`; JS `charAt` becomes an `Option Char` lookup
    (the empty string returned out of range is distinct from every
    one-character string, so `none` models it faithfully in comparisons). -/

/-- JS `s.charAt i`: `none` models the empty string returned out of range. -/
def chAt (s : List Char) (i : Nat) : Option Char := s.get? i

/-- JS `s.slice a b` for `0 ≤ a` and `0 ≤ b`. -/
def sliceList (s : List Char) (a b : Nat) : List Char := (s.take b).drop a

/-- The loop `while (pos < max && src.charAt(pos) === d) { ++pos; }`.
    `fuel` bounds the remaining iterations; every call site passes
    `max - pos`, which makes the bound exact. -/
def runEnd (src : List Char) (d : Char) (max : Nat) : Nat → Nat → Nat
  | 0, pos => pos
  | fuel+1, pos =>
    if pos < max ∧ chAt src pos = some d then runEnd src d max fuel (pos + 1) else pos

/-- One step of the regex replace `/[ \n]+/g → ' '`; the flag records
    whether the previous character was part of a space-or-newline run. -/
def collapseWsAux : Bool → List Char → List Char
  | _, [] => []
  | inRun, c :: rest =>
    if c = ' ' ∨ c = '\n' then
      if inRun then collapseWsAux true rest else ' ' :: collapseWsAux true rest
    else c :: collapseWsAux false rest

/-- JS `.replace(/[ \n]+/g, ' ')`. -/
def collapseWs (s : List Char) : List Char := collapseWsAux false s

/-- Whitespace removed by JS `String.prototype.trim` (the ASCII part,
    which is all that occurs in this code path). -/
def isTrimWs (c : Char) : Bool :=
  c == ' ' || c == '\t' || c == '\n' || c == '\r' || c == '\x0b' || c == '\x0c'

/-- JS `String.prototype.trim`. -/
def jsTrim (s : List Char) : List Char :=
  ((s.dropWhile isTrimWs).reverse.dropWhile isTrimWs).reverse

/-- The content normalization `.replace(/[ \n]+/g, ' ').trim()` applied by
    both scanners to extracted span text. -/
def katexNormalize (s : List Char) : List Char := jsTrim (collapseWs s)

/-- The token pushed by `state.push` in `parseInlineKatex`
    (`{ type: 'katex', content, block, level }`). -/
structure InlineToken where
  content : List Char
  block : Bool
  level : Nat
deriving DecidableEq, Repr

/-- The slice of the remarkable inline parser state that `parseInlineKatex`
    reads (`src`, `pos`, `posMax`, `level`) and writes (`pos`, the token
    stream through `state.push`). -/
structure InlineState where
  src : List Char
  pos : Nat
  posMax : Nat
  level : Nat
  tokens : List InlineToken
deriving DecidableEq, Repr

/-- The scanning loop of `parseInlineKatex` from `spanStart` on: brace
    depth tracking with backslash escapes, and candidate closing runs of
    the delimiter at depth 0.  Returns `some (matchStart, matchEnd)` for
    the successful closing marker, `none` when the loop runs off `max` or
    the depth goes negative.  `fuel` bounds iterations; the call site
    passes `max - pos`, which is exact since `pos` increases by one per
    iteration. -/
def scanLoop (src : List Char) (d : Char) (mlen max : Nat) :
    Nat → Int → Nat → Option (Nat × Nat)
  | 0, _, _ => none
  | fuel+1, depth, pos =>
    if pos < max then
      if chAt src pos = some '{' ∧ (pos = 0 ∨ chAt src (pos - 1) ≠ some '\\') then
        scanLoop src d mlen max fuel (depth + 1) (pos + 1)
      else if chAt src pos = some '}' ∧ (pos = 0 ∨ chAt src (pos - 1) ≠ some '\\') then
        if depth - 1 < 0 then none
        else scanLoop src d mlen max fuel (depth - 1) (pos + 1)
      else if chAt src pos = some d ∧ depth = 0 then
        let mEnd := runEnd src d max (max - (pos + 1)) (pos + 1)
        if mEnd - pos = mlen then some (pos, mEnd)
        else scanLoop src d mlen max fuel depth (pos + 1)
      else scanLoop src d mlen max fuel depth (pos + 1)
    else none

/-- Source `parseInlineKatex(state, silent, delimiter)` from the katex-utils
    module.  Returns the JS boolean result together with the updated
    state; every `return false` path in the source leaves the state
    untouched, which the embedding makes explicit by returning `st`. -/
def parseInlineKatex (st : InlineState) (silent : Bool) (d : Char) : Bool × InlineState :=
  let start := st.pos
  let max := st.posMax
  if chAt st.src start ≠ some d then (false, st)
  else
    let spanStart := runEnd st.src d max (max - (start + 1)) (start + 1)
    let mlen := spanStart - start
    if 2 < mlen then (false, st)
    else
      match scanLoop st.src d mlen max (max - spanStart) 0 spanStart with
      | none => (false, st)
      | some (mStart, mEnd) =>
        if silent then (true, { st with pos := mEnd })
        else
          (true, { st with
                    pos := mEnd,
                    tokens := st.tokens ++
                      [{ content := katexNormalize (sliceList st.src spanStart mStart),
                         block := decide (1 < mlen),
                         level := st.level }] })

/-- The token pushed by `parseBlockKatex`
    (`{ type: 'katex', params: null, content, lines, level, block: true }`). -/
structure BlockToken where
  content : List Char
  lines : Nat × Nat
  level : Nat
  block : Bool
deriving DecidableEq, Repr

/-- The slice of the remarkable block parser state that `parseBlockKatex`
    reads (`src`, the per-line offset arrays, `blkIndent`, `level`) and
    writes (`line`, the token stream). -/
structure BlockState where
  src : List Char
  bMarks : List Nat
  eMarks : List Nat
  tShift : List Nat
  blkIndent : Nat
  line : Nat
  level : Nat
  tokens : List BlockToken
deriving DecidableEq, Repr

/-- Modelled from remarkable's `StateBlock.skipChars(pos, code)`: advance
    while the character at `pos` equals `c`, bounded by the end of `src`.
    `fuel` is passed as `src.length - pos` by every call site; past the end
    `chAt` is `none`, so the guard fails exactly as in the source. -/
def skipChars (src : List Char) (c : Char) : Nat → Nat → Nat
  | 0, pos => pos
  | fuel+1, pos => if chAt src pos = some c then skipChars src c fuel (pos + 1) else pos

/-- Modelled from remarkable's `StateBlock.skipSpaces(pos)`: advance over
    space characters, bounded by the end of `src`. -/
def skipSpaces (src : List Char) : Nat → Nat → Nat
  | 0, pos => pos
  | fuel+1, pos => if chAt src pos = some ' ' then skipSpaces src fuel (pos + 1) else pos

/-- Modelled from remarkable's `StateBlock.getLines(begin, end, indent,
    keepLastLF)` at the one call site in `parseBlockKatex`, where
    `keepLastLF` is `true`: each line contributes the slice from
    `bMarks[line] + min(tShift[line], indent)` to `eMarks[line] + 1`. -/
def getLinesAux (st : BlockState) (stop indent : Nat) : Nat → Nat → List Char
  | 0, _ => []
  | fuel+1, line =>
    if line < stop then
      sliceList st.src (st.bMarks.getD line 0 + min (st.tShift.getD line 0) indent)
          (st.eMarks.getD line 0 + 1)
        ++ getLinesAux st stop indent fuel (line + 1)
    else []

/-- The call `state.getLines(begin, end, indent, true)`. -/
def getLines (st : BlockState) (start stop indent : Nat) : List Char :=
  getLinesAux st stop indent (stop - start) start

/-- The end-marker search loop of `parseBlockKatex` (`for (;;) { ++nextLine;
    ... }`): returns `some nextLine` for the closing line, `none` when the
    loop breaks without one (end bound reached, or a non-blank line
    indented less than `blkIndent`).  `fuel` bounds iterations; the call
    site passes `endLine - startLine`, which is exact since `nextLine`
    increases by one per iteration. -/
def findEndMarker (st : BlockState) (d : Char) (len stop : Nat) : Nat → Nat → Option Nat
  | 0, _ => none
  | fuel+1, cur =>
    let nextLine := cur + 1
    if stop ≤ nextLine then none
    else
      let mem := st.bMarks.getD nextLine 0 + st.tShift.getD nextLine 0
      let max := st.eMarks.getD nextLine 0
      if mem < max ∧ st.tShift.getD nextLine 0 < st.blkIndent then none
      else if chAt st.src mem ≠ some d then findEndMarker st d len stop fuel nextLine
      else if 4 ≤ st.tShift.getD nextLine 0 - st.blkIndent then
        findEndMarker st d len stop fuel nextLine
      else
        let pos := skipChars st.src d (st.src.length - mem) mem
        if pos - mem < len then findEndMarker st d len stop fuel nextLine
        else
          let pos2 := skipSpaces st.src (st.src.length - pos) pos
          if pos2 < max then findEndMarker st d len stop fuel nextLine
          else some nextLine

/-- Source `parseBlockKatex(state, startLine, endLine, delimiter)` from the
    katex-utils module.  As in the source, the state is mutated (`line`
    set, token pushed) only after an end marker has been found; every
    failing path returns the state unchanged. -/
def parseBlockKatex (st : BlockState) (startLine endLine : Nat) (d : Char) :
    Bool × BlockState :=
  let pos := st.bMarks.getD startLine 0 + st.tShift.getD startLine 0
  let max := st.eMarks.getD startLine 0
  if max < pos + 1 then (false, st)
  else if chAt st.src pos ≠ some d then (false, st)
  else
    let pos2 := skipChars st.src d (st.src.length - pos) pos
    let len := pos2 - pos
    if len ≠ 2 then (false, st)
    else
      match findEndMarker st d len endLine (endLine - startLine) startLine with
      | none => (false, st)
      | some nextLine =>
        let indent := st.tShift.getD startLine 0
        let newLine := nextLine + 1
        (true, { st with
                  line := newLine,
                  tokens := st.tokens ++
                    [{ content := katexNormalize (getLines st (startLine + 1) nextLine indent),
                       lines := (startLine, newLine),
                       level := st.level,
                       block := true }] })

/-- Split at newline characters, keeping empty lines, as the remarkable
    core does when it computes the per-line offset arrays. -/
def splitOnNl : List Char → List (List Char)
  | [] => [[]]
  | c :: rest =>
    if c = '\n' then [] :: splitOnNl rest
    else
      match splitOnNl rest with
      | [] => [[c]]
      | l :: ls => (c :: l) :: ls

/-- For each line in order: its start offset, end offset (before the
    newline) and leading-space count, as remarkable's line scanner
    records them. -/
def buildMarks : List (List Char) → Nat → List (Nat × Nat × Nat)
  | [], _ => []
  | l :: ls, off =>
    (off, off + l.length, (l.takeWhile (fun c => c == ' ')).length)
      :: buildMarks ls (off + l.length + 1)

/-- A block parser state for a given source text, with the offset arrays
    computed as remarkable computes them (including the fake tail entry),
    an ambient `blkIndent`, and an empty token stream. -/
def mkBlockState (src : List Char) (blkIndent : Nat) : BlockState :=
  let ms := buildMarks (splitOnNl src) 0
  { src := src
    bMarks := ms.map (fun m => m.1) ++ [src.length]
    eMarks := ms.map (fun m => m.2.1) ++ [src.length]
    tShift := ms.map (fun m => m.2.2) ++ [0]
    blkIndent := blkIndent
    line := 0
    level := 0
    tokens := [] }

/-- The plugin options object taken by `rkatex(md, options)` in
    `index.js`: the `delimiter` entry may be absent (`undefined`), and the
    styling flag `useTailwind` defaults to `false`. -/
structure PluginOptions where
  delimiter : Option (List Char)
  useTailwind : Bool
deriving DecidableEq, Repr

/-- The error thrown by `rkatex` for a bad delimiter
    (`throw new Error('invalid delimiter')`). -/
inductive SetupError where
  | invalidDelimiter
deriving DecidableEq, Repr

/-- The delimiter computation at the top of `rkatex`:
    `const opts = options || {}` (an absent options object supplies no
    delimiter), `const delimiter = opts.delimiter || dollar` (an absent or
    empty — falsy — delimiter falls back to the dollar sign), then
    `if (delimiter.length !== 1) { throw new Error('invalid delimiter'); }`. -/
def rkatexDelimiter (options : Option PluginOptions) : Except SetupError (List Char) :=
  let optDelim := match options with
    | none => none
    | some o => o.delimiter
  let delimiter := match optDelim with
    | none => ['$']
    | some s => if s = [] then ['$'] else s
  if delimiter.length ≠ 1 then Except.error SetupError.invalidDelimiter
  else Except.ok delimiter

/-- The `stylingConfig` object built by `rkatex` and passed through
    `renderKatex`/`applyCustomStyling` to `processAriaHidden`. -/
structure StylingConfig where
  useTailwind : Bool
deriving DecidableEq, Repr

/-! Regex machinery for `processAriaHidden`.  The source uses three regex
    literals; here each is embedded as an explicit scanner with JS
    leftmost-match semantics.  For these particular patterns greedy and
    lazy pieces never need backtracking: a greedy character-class run
    (`[a-zA-Z0-9]*`, `\s+`, `[^"']*`, `\s*`) is always followed by a
    character outside its class, and the lazy `[^>]*?` pieces are resolved
    by scanning for the earliest position where the following literal
    matches, failing on the first `>`. -/

/-- Maximal run of characters satisfying `p`, starting at `pos`; `fuel` is
    passed as `s.length - pos` (past the end `chAt` is `none`). -/
def runEndP (p : Char → Bool) (s : List Char) : Nat → Nat → Nat
  | 0, pos => pos
  | fuel+1, pos =>
    match chAt s pos with
    | some c => if p c then runEndP p s fuel (pos + 1) else pos
    | none => pos

/-- Case-sensitive literal match of `pat` at position `pos`. -/
def csMatchAt (s : List Char) : Nat → List Char → Bool
  | _, [] => true
  | pos, c :: cs => chAt s pos == some c && csMatchAt s (pos + 1) cs

/-- Case-insensitive literal match of `pat` at position `pos` (the outer
    regex carries the `i` flag). -/
def ciMatchAt (s : List Char) : Nat → List Char → Bool
  | _, [] => true
  | pos, c :: cs =>
    (match chAt s pos with
     | some a => a.toLower == c.toLower
     | none => false)
      && ciMatchAt s (pos + 1) cs

/-- A quote character `["']` at position `pos`. -/
def quoteAt (s : List Char) (pos : Nat) : Bool :=
  chAt s pos == some '"' || chAt s pos == some '\''

/-- JS `\s` (the ASCII part, all that occurs here). -/
def isJsWs (c : Char) : Bool :=
  c == ' ' || c == '\t' || c == '\n' || c == '\r' || c == '\x0b' || c == '\x0c'

/-- The literal `aria-hidden=["']true["']` (case-insensitive), 18
    characters long when it matches. -/
def ariaLitAt (s : List Char) (pos : Nat) : Bool :=
  ciMatchAt s pos ("aria-hidden=").toList && quoteAt s (pos + 12)
    && ciMatchAt s (pos + 13) ("true").toList && quoteAt s (pos + 17)

/-- Resolve the lazy `([^>]*?)` before the aria literal: the earliest
    position at or after `pos` where the literal matches, with every
    skipped character distinct from `>`.  `fuel` is `s.length - pos`. -/
def findAriaLit (s : List Char) : Nat → Nat → Option Nat
  | 0, _ => none
  | fuel+1, pos =>
    if ariaLitAt s pos then some pos
    else
      match chAt s pos with
      | some c => if c = '>' then none else findAriaLit s fuel (pos + 1)
      | none => none

/-- Resolve the lazy `([^>]*?)` before the closing `>`: the first `>` at
    or after `pos`.  `fuel` is `s.length - pos`. -/
def findGt (s : List Char) : Nat → Nat → Option Nat
  | 0, _ => none
  | fuel+1, pos =>
    match chAt s pos with
    | some c => if c = '>' then some pos else findGt s fuel (pos + 1)
    | none => none

/-- Attempt the outer regex
    `<([a-zA-Z][a-zA-Z0-9]*)\s+([^>]*?)aria-hidden=["']true["']([^>]*?)>`
    anchored at position `l`.  On success, `(wsEnd, ariaStart, ariaEnd,
    gtPos)`: group 2 is `[wsEnd, ariaStart)`, group 3 is
    `[ariaEnd, gtPos)`, and the whole match is `[l, gtPos + 1)`. -/
def tryAriaAt (s : List Char) (l : Nat) : Option (Nat × Nat × Nat × Nat) :=
  if chAt s l = some '<' then
    match chAt s (l + 1) with
    | some c =>
      if c.isAlpha then
        let tEnd := runEndP (fun a => a.isAlpha || a.isDigit) s (s.length - (l + 2)) (l + 2)
        let wsEnd := runEndP isJsWs s (s.length - tEnd) tEnd
        if tEnd < wsEnd then
          match findAriaLit s (s.length - wsEnd) wsEnd with
          | some a =>
            match findGt s (s.length - (a + 18)) (a + 18) with
            | some g => some (wsEnd, a, a + 18, g)
            | none => none
          | none => none
        else none
      else none
    | none => none
  else none

/-- Leftmost match of the outer regex at or after position `i`:
    `(l, wsEnd, ariaStart, ariaEnd, gtPos)`. -/
def findAriaFrom (s : List Char) : Nat → Nat → Option (Nat × Nat × Nat × Nat × Nat)
  | 0, _ => none
  | fuel+1, l =>
    match tryAriaAt s l with
    | some (w, a, ae, g) => some (l, w, a, ae, g)
    | none => if l < s.length then findAriaFrom s fuel (l + 1) else none

/-- Attempt `key=["']([^"']*)["']` (with `key` the literal `class=` or
    `style=`) anchored at position `l`: `(valStart, valEnd, stop)` where
    the group is `[valStart, valEnd)` and the match ends at `stop`.  The
    greedy `[^"']*` needs no backtracking: it is followed by a quote,
    which is outside its class. -/
def tryAttrValAt (s key : List Char) (l : Nat) : Option (Nat × Nat × Nat) :=
  if csMatchAt s l key && quoteAt s (l + key.length) then
    let vs := l + key.length + 1
    let ve := runEndP (fun c => !(c == '"' || c == '\'')) s (s.length - vs) vs
    if quoteAt s ve then some (vs, ve, ve + 1) else none
  else none

/-- Leftmost match of `key=["']([^"']*)["']` at or after position `l`:
    `(start, valStart, valEnd, stop)`. -/
def findAttrVal (s key : List Char) : Nat → Nat → Option (Nat × Nat × Nat × Nat)
  | 0, _ => none
  | fuel+1, l =>
    match tryAttrValAt s key l with
    | some (vs, ve, stop) => some (l, vs, ve, stop)
    | none => if l < s.length then findAttrVal s key fuel (l + 1) else none

/-- Leftmost match of `\s*class=["'][^"']*["']`: `(start, stop)` including
    the leading whitespace run.  Backtracking inside `\s*` is impossible
    because `c` is not a whitespace character, so only the maximal run can
    precede the literal. -/
def findWsClass (s : List Char) : Nat → Nat → Option (Nat × Nat)
  | 0, _ => none
  | fuel+1, l =>
    let wsEnd := runEndP isJsWs s (s.length - l) l
    match tryAttrValAt s ("class=").toList wsEnd with
    | some (_, _, stop) => some (l, stop)
    | none => if l < s.length then findWsClass s fuel (l + 1) else none

/-- JS `s.split(' ')`, keeping empty fields. -/
def splitSpace : List Char → List (List Char)
  | [] => [[]]
  | c :: rest =>
    if c = ' ' then [] :: splitSpace rest
    else
      match splitSpace rest with
      | [] => [[c]]
      | l :: ls => (c :: l) :: ls

/-- JS `parts.join(' ')`. -/
def joinSpace : List (List Char) → List Char
  | [] => []
  | [t] => t
  | t :: ts => t ++ ' ' :: joinSpace ts

/-- JS `s.includes(pat)`. -/
def hasSub (pat : List Char) : List Char → Bool
  | [] => pat.isEmpty
  | c :: rest => csMatchAt (c :: rest) 0 pat || hasSub pat rest

/-- JS `s.replace(/key=["']([^"']*)["']/, repl)` for a fixed replacement
    text (the template strings at the call sites), replacing the first
    match only. -/
def replaceFirstAttr (s key repl : List Char) : List Char :=
  match findAttrVal s key (s.length + 1) 0 with
  | some (st, _, _, stop) => sliceList s 0 st ++ repl ++ sliceList s stop s.length
  | none => s

/-- JS `s.replace(/\s*class=["'][^"']*["']/, '')` — the removal of an
    emptied class attribute. -/
def removeFirstWsClass (s : List Char) : List Char :=
  match findWsClass s (s.length + 1) 0 with
  | some (st, stop) => sliceList s 0 st ++ sliceList s stop s.length
  | none => s

/-- JS `s.replace(/>$/, ' style="display:none">')`. -/
def appendStyleBeforeGt (s : List Char) : List Char :=
  if s.getLast? == some '>' then
    s.dropLast ++ (" style=\"display:none\">").toList
  else s

/-- The replacement callback of `processAriaHidden` (shipped version):
    `m` is the whole matched opening tag, `fullAttrs` the concatenation
    `beforeAttrs + afterAttrs` of the two lazy groups.  First the class
    rewrite — look up `class=["']...["']` in `fullAttrs`, filter out empty
    tokens and `inline`, and if that changed anything rewrite (or remove)
    the first class attribute of `m` — then the style rewrite — if
    `fullAttrs` carries a style attribute, append `display:none` to it in
    `m` unless already present, otherwise add a fresh style attribute
    before the closing `>`. -/
def processTag (m fullAttrs : List Char) : List Char :=
  let pm1 :=
    match findAttrVal fullAttrs ("class=").toList (fullAttrs.length + 1) 0 with
    | some (_, vs, ve, _) =>
      let existingClasses := sliceList fullAttrs vs ve
      let filteredClasses :=
        joinSpace ((splitSpace existingClasses).filter
          (fun cls => !(jsTrim cls).isEmpty && !(cls == ("inline").toList)))
      if filteredClasses ≠ existingClasses then
        if filteredClasses ≠ [] then
          replaceFirstAttr m ("class=").toList
            (("class=\"").toList ++ filteredClasses ++ [ '"' ])
        else removeFirstWsClass m
      else m
    | none => m
  match findAttrVal fullAttrs ("style=").toList (fullAttrs.length + 1) 0 with
  | some (_, vs, ve, _) =>
    let existingStyle := sliceList fullAttrs vs ve
    if hasSub ("display:none").toList existingStyle
        || hasSub ("display: none").toList existingStyle then pm1
    else
      let newStyle :=
        if existingStyle.getLast? == some ';' then
          existingStyle ++ (" display:none").toList
        else existingStyle ++ ("; display:none").toList
      replaceFirstAttr pm1 ("style=").toList
        (("style=\"").toList ++ newStyle ++ [ '"' ])
  | none => appendStyleBeforeGt pm1

/-- The global regex replace in `processAriaHidden`: emit the text up to
    the leftmost match, the callback's rewrite of the match, and continue
    after it.  `fuel` bounds the number of matches (each is non-empty). -/
def replaceAriaAll (s : List Char) : Nat → Nat → List Char
  | 0, i => sliceList s i s.length
  | fuel+1, i =>
    match findAriaFrom s (s.length + 1 - i) i with
    | none => sliceList s i s.length
    | some (l, w, a, ae, g) =>
      sliceList s i l
        ++ processTag (sliceList s l (g + 1)) (sliceList s w a ++ sliceList s ae g)
        ++ replaceAriaAll s fuel (g + 1)

/-- Source `processAriaHidden(htmlContent, config)` from the katex-utils module
    (shipped version): the guard returns a falsy — here empty — input
    unchanged; the `config` parameter is accepted but never read. -/
def processAriaHidden (html : List Char) (_config : StylingConfig) : List Char :=
  if html = [] then html
  else replaceAriaAll html (html.length + 1) 0

/-! Concrete parser states used by the witnesses and counterexamples.
    Inline states start the scan at the first delimiter character of the
    buffer, as the host engine's inline rule dispatch does; block states
    are built by `mkBlockState`, so their offset arrays agree with the
    source text. -/

/-- Buffer `$x` with no closing delimiter, cursor on the `$`. -/
def exC1Inline : InlineState := { src := ("$x").toList, pos := 0, posMax := 2, level := 0, tokens := [] }

/-- An opened but never closed block. -/
def exC1Block : BlockState := mkBlockState (("$$\nx").toList) 0

/-- Buffer `$x$$`: opening marker of length 1, then a delimiter run of length 2
    before the end of range. -/
def exC2 : InlineState := { src := ("$x$$").toList, pos := 0, posMax := 4, level := 0, tokens := [] }

/-- Buffer `$a\$b$`: a backslash immediately before the second delimiter. -/
def exC10 : InlineState := { src := ("$a\\$b$").toList, pos := 0, posMax := 6, level := 0, tokens := [] }

/-- Opening line `$$ junk` with trailing text after the length-2 run. -/
def exC3 : BlockState := mkBlockState (("$$ junk\nx\n$$").toList) 0

/-- A well-formed three-line block. -/
def exC3ok : BlockState := mkBlockState (("$$\nx\n$$").toList) 0

/-- Fence at indent 2 with a blank line (indent 0) between opener and
    closer, inside a structure with `blkIndent = 2`. -/
def exC5 : BlockState := mkBlockState (("  $$\n\n  $$").toList) 2

/-- Fence at indent 2 with a non-blank line of indent 1 between opener
    and closer, inside a structure with `blkIndent = 2`. -/
def exC5bad : BlockState := mkBlockState (("  $$\n z\n  $$").toList) 2

/-- Buffer `Equation $x + y$.` with the cursor on the opening `$`. -/
def exC6 : InlineState :=
  { src := ("Equation $x + y$.").toList, pos := 9, posMax := 17, level := 0, tokens := [] }

/-- A matched opening tag carrying two class attributes. -/
def exC7 : List Char :=
  ("<span class=\"inline\" class=\"inline x\" aria-hidden=\"true\">").toList

/-- A matched opening tag whose earlier attribute value contains the text
    of a class attribute. -/
def exC8 : List Char :=
  ("<span data-x=\"class='inline'\" aria-hidden=\"true\" class=\"inline\">").toList

/-- The matched-tag exemplar from the specification. -/
def exC8ok : List Char := ("<span class=\"inline foo\" aria-hidden=\"true\">").toList

/-- The success contract of the inline scanner, stated against the source
    text: on success there is a closing delimiter run `[ms, me)` whose
    length equals the opening marker's, starting at or after the end of
    the opening run; the emitted token's content is the normalized text
    strictly between the two runs, its kind is block exactly for an
    opening marker of length 2, and the cursor lands just past the
    closing run. -/
def inlineMatchSpec (st : InlineState) (d : Char) : Prop :=
  let start := st.pos
  let spanStart := runEnd st.src d st.posMax (st.posMax - (start + 1)) (start + 1)
  let mlen := spanStart - start
  ∃ ms me,
    spanStart ≤ ms ∧ ms < st.posMax ∧ me ≤ st.posMax ∧ me - ms = mlen ∧
    (∀ i, start ≤ i → i < spanStart → chAt st.src i = some d) ∧
    (∀ i, ms ≤ i → i < me → chAt st.src i = some d) ∧
    (parseInlineKatex st false d).2.pos = me ∧
    (parseInlineKatex st false d).2.tokens
      = st.tokens ++ [{ content := katexNormalize (sliceList st.src spanStart ms),
                        block := decide (1 < mlen), level := st.level }] ∧
    (1 < mlen ↔ mlen = 2)

theorem runEnd_ge (src : List Char) (d : Char) (max : Nat) :
    ∀ fuel pos, pos ≤ runEnd src d max fuel pos := by
  intro fuel
  induction fuel with
  | zero => intro pos; simp [runEnd]
  | succ n ih =>
    intro pos
    unfold runEnd
    split
    · exact Nat.le_trans (Nat.le_succ pos) (ih (pos + 1))
    · exact Nat.le_refl pos

theorem runEnd_le (src : List Char) (d : Char) (max : Nat) :
    ∀ fuel pos, runEnd src d max fuel pos ≤ pos + fuel := by
  intro fuel
  induction fuel with
  | zero => intro pos; simp [runEnd]
  | succ n ih =>
    intro pos
    unfold runEnd
    split
    · exact Nat.le_trans (ih (pos + 1)) (by omega)
    · omega

theorem runEnd_chars (src : List Char) (d : Char) (max : Nat) :
    ∀ fuel pos i, pos ≤ i → i < runEnd src d max fuel pos → chAt src i = some d := by
  intro fuel
  induction fuel with
  | zero =>
    intro pos i h1 h2
    simp [runEnd] at h2
    omega
  | succ n ih =>
    intro pos i h1 h2
    unfold runEnd at h2
    split at h2
    · rcases Nat.eq_or_lt_of_le h1 with h | h
      · subst h
        next hc => exact hc.2
      · exact ih (pos + 1) i h h2
    · omega

theorem scanLoop_some (src : List Char) (d : Char) (mlen max : Nat) :
    ∀ fuel depth pos ms me,
      scanLoop src d mlen max fuel depth pos = some (ms, me) →
      pos ≤ ms ∧ ms < max ∧ chAt src ms = some d ∧
        me = runEnd src d max (max - (ms + 1)) (ms + 1) ∧ me - ms = mlen := by
  intro fuel
  induction fuel with
  | zero => intro depth pos ms me h; simp [scanLoop] at h
  | succ n ih =>
    intro depth pos ms me h
    simp only [scanLoop] at h
    split at h
    · split at h
      · obtain ⟨h1, h2, h3, h4, h5⟩ := ih _ _ _ _ h
        exact ⟨by omega, h2, h3, h4, h5⟩
      · split at h
        · split at h
          · exact absurd h (by simp)
          · obtain ⟨h1, h2, h3, h4, h5⟩ := ih _ _ _ _ h
            exact ⟨by omega, h2, h3, h4, h5⟩
        · split at h
          · next hcand =>
            split at h
            · next hlen =>
              rw [Option.some.injEq, Prod.mk.injEq] at h
              obtain ⟨h1, h2⟩ := h
              subst h1; subst h2
              next hlt _ _ => exact ⟨Nat.le_refl _, hlt, hcand.1, rfl, hlen⟩
            · obtain ⟨h1, h2, h3, h4, h5⟩ := ih _ _ _ _ h
              exact ⟨by omega, h2, h3, h4, h5⟩
          · obtain ⟨h1, h2, h3, h4, h5⟩ := ih _ _ _ _ h
            exact ⟨by omega, h2, h3, h4, h5⟩
    · exact absurd h (by simp)

/-- C1: every failing scan attempt leaves the buffer state unchanged: the
    inline scanner returns `false` without touching the state (in
    particular `pos`), and the block scanner returns `false` without
    touching the state (in particular `line` and the token stream). -/
theorem katexScanFailurePreservesState
    (ist : InlineState) (silent : Bool) (d : Char)
    (bst : BlockState) (startLine endLine : Nat) :
    ((parseInlineKatex ist silent d).1 = false → (parseInlineKatex ist silent d).2 = ist)
    ∧ ((parseBlockKatex bst startLine endLine d).1 = false →
        (parseBlockKatex bst startLine endLine d).2 = bst) := by
  constructor
  · simp only [parseInlineKatex]
    split
    · intro _; rfl
    · split
      · intro _; rfl
      · split
        · intro _; rfl
        · split <;> simp
  · simp only [parseBlockKatex]
    split
    · intro _; rfl
    · split
      · intro _; rfl
      · split
        · intro _; rfl
        · split
          · intro _; rfl
          · simp

theorem katexScanFailurePreservesState_witness :
    (parseInlineKatex exC1Inline false '$').1 = false
    ∧ (parseInlineKatex exC1Inline false '$').2 = exC1Inline
    ∧ (parseBlockKatex exC1Block 0 2 '$').1 = false
    ∧ (parseBlockKatex exC1Block 0 2 '$').2 = exC1Block :=
  ⟨by decide,
   (katexScanFailurePreservesState exC1Inline false '$' exC1Block 0 2).1 (by decide),
   by decide,
   (katexScanFailurePreservesState exC1Inline false '$' exC1Block 0 2).2 (by decide)⟩

/-- C2 counterexample: with delimiter `$` and input `$x$$`, the scan does
    not fail: it succeeds, taking the final `$` of the length-2 run as the
    closing marker, with content `x$` and the cursor at the end. -/
theorem inlineShortCloserRun_counterexample :
    (parseInlineKatex exC2 false '$').1 = true
    ∧ (parseInlineKatex exC2 false '$').2.pos = 4
    ∧ (parseInlineKatex exC2 false '$').2.tokens
        = [{ content := ("x$").toList, block := false, level := 0 }] := by
  refine ⟨by decide, by decide, by decide⟩

/-- C2 (amended): a delimiter run at depth 0 whose length does not equal
    the opening marker's is not skipped as a whole: scanning resumes at
    the very next character, so a proper suffix of the same run can later
    be taken as the closing marker (as happens for `$x$$`). -/
theorem inlineShortCloserRunResumesNextChar
    (src : List Char) (d : Char) (mlen max fuel pos : Nat)
    (hlt : pos < max) (hd : chAt src pos = some d)
    (hbo : d ≠ '{') (hbc : d ≠ '}')
    (hlen : runEnd src d max (max - (pos + 1)) (pos + 1) - pos ≠ mlen) :
    scanLoop src d mlen max (fuel + 1) 0 pos
      = scanLoop src d mlen max fuel 0 (pos + 1) := by
  simp only [scanLoop, hd, hlt, if_true, Option.some.injEq]
  rw [if_neg (by simp [hbo]), if_neg (by simp [hbc]), if_pos (by simp), if_neg hlen]

theorem inlineShortCloserRunResumesNextChar_witness :
    2 < 4 ∧ chAt (("$x$$").toList) 2 = some '$'
    ∧ runEnd (("$x$$").toList) '$' 4 1 3 - 2 ≠ 1
    ∧ scanLoop (("$x$$").toList) '$' 1 4 2 0 2
        = scanLoop (("$x$$").toList) '$' 1 4 1 0 3 :=
  ⟨by decide, by decide, by decide,
   inlineShortCloserRunResumesNextChar (("$x$$").toList) '$' 1 4 1 2
     (by decide) (by decide) (by decide) (by decide) (by decide)⟩

/-- C10: a backslash escapes only braces, never the delimiter: a
    delimiter run at depth 0 is a candidate closing marker regardless of
    the character before it (no hypothesis below constrains
    `chAt src (pos - 1)`), and if its length matches the opening marker's
    the span closes there; in particular `$a\$b$` matches with the span
    closing at the escaped `\$`, content `a\`, cursor just past it. -/
theorem inlineBackslashDoesNotEscapeDelimiter
    (src : List Char) (d : Char) (mlen max fuel pos : Nat)
    (hlt : pos < max) (hd : chAt src pos = some d)
    (hbo : d ≠ '{') (hbc : d ≠ '}')
    (hlen : runEnd src d max (max - (pos + 1)) (pos + 1) - pos = mlen) :
    scanLoop src d mlen max (fuel + 1) 0 pos
      = some (pos, runEnd src d max (max - (pos + 1)) (pos + 1))
    ∧ parseInlineKatex exC10 false '$'
        = (true, { src := exC10.src, pos := 4, posMax := 6, level := 0,
                   tokens := [{ content := ("a\\").toList, block := false, level := 0 }] }) := by
  constructor
  · simp only [scanLoop, hd, hlt, if_true, Option.some.injEq]
    rw [if_neg (by simp [hbo]), if_neg (by simp [hbc]), if_pos (by simp), if_pos hlen]
  · decide

theorem inlineBackslashDoesNotEscapeDelimiter_witness :
    chAt (("$a\\$b$").toList) 2 = some '\\'
    ∧ (scanLoop (("$a\\$b$").toList) '$' 1 6 1 0 3 = some (3, 4)
       ∧ parseInlineKatex exC10 false '$'
           = (true, { src := exC10.src, pos := 4, posMax := 6, level := 0,
                      tokens := [{ content := ("a\\").toList, block := false, level := 0 }] })) :=
  ⟨by decide,
   inlineBackslashDoesNotEscapeDelimiter (("$a\\$b$").toList) '$' 1 6 0 3
     (by decide) (by decide) (by decide) (by decide) (by decide)⟩

/-- C6: on every successful (non-silent) inline match the emitted token's
    content is the normalized text strictly between the opening and
    closing delimiter runs, its kind is block exactly when the opening
    marker has length 2, and the cursor advances to just past the closing
    run (`inlineMatchSpec`). -/
theorem inlineSuccessContract (st : InlineState) (d : Char)
    (h : (parseInlineKatex st false d).1 = true) : inlineMatchSpec st d := by
  simp only [parseInlineKatex] at h
  simp only [inlineMatchSpec]
  by_cases h1 : chAt st.src st.pos ≠ some d
  · rw [if_pos h1] at h
    exact absurd h (by simp)
  · rw [if_neg h1] at h
    rw [not_not] at h1
    by_cases h2 : 2 < runEnd st.src d st.posMax (st.posMax - (st.pos + 1)) (st.pos + 1) - st.pos
    · rw [if_pos h2] at h
      exact absurd h (by simp)
    · rw [if_neg h2] at h
      rcases heq : scanLoop st.src d
          (runEnd st.src d st.posMax (st.posMax - (st.pos + 1)) (st.pos + 1) - st.pos)
          st.posMax
          (st.posMax - runEnd st.src d st.posMax (st.posMax - (st.pos + 1)) (st.pos + 1))
          0 (runEnd st.src d st.posMax (st.posMax - (st.pos + 1)) (st.pos + 1)) with
        _ | ⟨ms, me⟩
      · rw [heq] at h
        exact absurd h (by simp)
      · obtain ⟨hge, hlt, hchar, hme, hlen⟩ :=
          scanLoop_some st.src d _ st.posMax _ _ _ ms me heq
        have hPeq : parseInlineKatex st false d
            = (true, { st with
                pos := me,
                tokens := st.tokens ++
                  [{ content := katexNormalize (sliceList st.src
                      (runEnd st.src d st.posMax (st.posMax - (st.pos + 1)) (st.pos + 1)) ms),
                     block := decide (1 <
                       runEnd st.src d st.posMax (st.posMax - (st.pos + 1)) (st.pos + 1) - st.pos),
                     level := st.level }] }) := by
          simp only [parseInlineKatex]
          rw [if_neg (not_not_intro h1), if_neg h2, heq]
          simp
        refine ⟨ms, me, hge, hlt, ?_, hlen, ?_, ?_, ?_, ?_, ?_⟩
        · rw [hme]
          have hle := runEnd_le st.src d st.posMax (st.posMax - (ms + 1)) (ms + 1)
          omega
        · intro i hi1 hi2
          rcases Nat.eq_or_lt_of_le hi1 with he | hlt2
          · rw [← he]; exact h1
          · exact runEnd_chars st.src d st.posMax _ (st.pos + 1) i hlt2 hi2
        · intro i hi1 hi2
          rcases Nat.eq_or_lt_of_le hi1 with he | hlt2
          · rw [← he]; exact hchar
          · rw [hme] at hi2
            exact runEnd_chars st.src d st.posMax _ (ms + 1) i hlt2 hi2
        · rw [hPeq]
        · rw [hPeq]
        · have hge1 := runEnd_ge st.src d st.posMax (st.posMax - (st.pos + 1)) (st.pos + 1)
          omega

theorem inlineSuccessContract_witness :
    (parseInlineKatex exC6 false '$').1 = true
    ∧ inlineMatchSpec exC6 '$'
    ∧ (parseInlineKatex exC6 false '$').2.pos = 16
    ∧ (parseInlineKatex exC6 false '$').2.tokens
        = [{ content := ("x + y").toList, block := false, level := 0 }] :=
  ⟨by decide, inlineSuccessContract exC6 '$' (by decide), by decide, by decide⟩

/-- C3 counterexample: the opening line `$$ junk` carries non-whitespace
    text after its length-2 delimiter run, yet the block attempt
    succeeds (with a closing line present). -/
theorem blockOpenerTrailingText_counterexample :
    (parseBlockKatex exC3 0 3 '$').1 = true
    ∧ (parseBlockKatex exC3 0 3 '$').2.line = 3 := by
  refine ⟨by decide, by decide⟩

/-- C3 (amended): success still requires the opening line, after its
    indentation, to begin with a delimiter run of length exactly 2 (a run
    of length 1, or of 3 or more, fails), but the rest of the opening
    line is never examined, so trailing text there does not cause
    failure. -/
theorem blockOpenerRunLengthTwo (st : BlockState) (startLine endLine : Nat) (d : Char)
    (h : (parseBlockKatex st startLine endLine d).1 = true) :
    chAt st.src (st.bMarks.getD startLine 0 + st.tShift.getD startLine 0) = some d
    ∧ skipChars st.src d
        (st.src.length - (st.bMarks.getD startLine 0 + st.tShift.getD startLine 0))
        (st.bMarks.getD startLine 0 + st.tShift.getD startLine 0)
      - (st.bMarks.getD startLine 0 + st.tShift.getD startLine 0) = 2 := by
  simp only [parseBlockKatex] at h
  by_cases h1 : st.eMarks.getD startLine 0
      < st.bMarks.getD startLine 0 + st.tShift.getD startLine 0 + 1
  · rw [if_pos h1] at h
    exact absurd h (by simp)
  · rw [if_neg h1] at h
    by_cases h2 : chAt st.src (st.bMarks.getD startLine 0 + st.tShift.getD startLine 0) ≠ some d
    · rw [if_pos h2] at h
      exact absurd h (by simp)
    · rw [if_neg h2] at h
      rw [not_not] at h2
      by_cases h3 : skipChars st.src d
          (st.src.length - (st.bMarks.getD startLine 0 + st.tShift.getD startLine 0))
          (st.bMarks.getD startLine 0 + st.tShift.getD startLine 0)
          - (st.bMarks.getD startLine 0 + st.tShift.getD startLine 0) ≠ 2
      · rw [if_pos h3] at h
        exact absurd h (by simp)
      · rw [not_not] at h3
        exact ⟨h2, h3⟩

theorem blockOpenerRunLengthTwo_witness :
    (parseBlockKatex exC3ok 0 3 '$').1 = true
    ∧ (chAt exC3ok.src (exC3ok.bMarks.getD 0 0 + exC3ok.tShift.getD 0 0) = some '$'
       ∧ skipChars exC3ok.src '$'
           (exC3ok.src.length - (exC3ok.bMarks.getD 0 0 + exC3ok.tShift.getD 0 0))
           (exC3ok.bMarks.getD 0 0 + exC3ok.tShift.getD 0 0)
         - (exC3ok.bMarks.getD 0 0 + exC3ok.tShift.getD 0 0) = 2) :=
  ⟨by decide, blockOpenerRunLengthTwo exC3ok 0 3 '$' (by decide)⟩

theorem findEndMarker_underindent (st : BlockState) (d : Char) (len stop fuel cur : Nat)
    (hrange : cur + 1 < stop)
    (hnb : st.bMarks.getD (cur + 1) 0 + st.tShift.getD (cur + 1) 0
      < st.eMarks.getD (cur + 1) 0)
    (hind : st.tShift.getD (cur + 1) 0 < st.blkIndent) :
    findEndMarker st d len stop fuel cur = none := by
  cases fuel with
  | zero => rfl
  | succ n =>
    simp only [findEndMarker]
    rw [if_neg (by omega), if_pos ⟨hnb, hind⟩]

/-- C5 (amended): a NON-BLANK line indented less than `blkIndent`,
    encountered at any point of the end-marker search, stops the search
    and fails the whole attempt — no token and no line-cursor
    advancement; but the check requires the line to be non-empty, so a
    blank line indented less than `blkIndent` is skipped instead. -/
theorem blockUnderindentNonblankAborts (st : BlockState) (d : Char)
    (len stop fuel cur : Nat)
    (hrange : cur + 1 < stop)
    (hnb : st.bMarks.getD (cur + 1) 0 + st.tShift.getD (cur + 1) 0
      < st.eMarks.getD (cur + 1) 0)
    (hind : st.tShift.getD (cur + 1) 0 < st.blkIndent) :
    findEndMarker st d len stop fuel cur = none
    ∧ (parseBlockKatex st cur stop d).1 = false
    ∧ (parseBlockKatex st cur stop d).2 = st := by
  have hP : parseBlockKatex st cur stop d = (false, st) := by
    simp only [parseBlockKatex]
    split
    · rfl
    · split
      · rfl
      · split
        · rfl
        · rw [findEndMarker_underindent st d _ stop _ cur hrange hnb hind]
  exact ⟨findEndMarker_underindent st d len stop fuel cur hrange hnb hind,
    by rw [hP], by rw [hP]⟩

theorem blockUnderindentNonblankAborts_witness :
    findEndMarker exC5bad '$' 2 3 3 0 = none
    ∧ (parseBlockKatex exC5bad 0 3 '$').1 = false
    ∧ (parseBlockKatex exC5bad 0 3 '$').2 = exC5bad :=
  blockUnderindentNonblankAborts exC5bad '$' 2 3 3 0 (by decide) (by decide) (by decide)

/-- C5 counterexample: a BLANK line indented less than `blkIndent` does
    not stop the search: with `blkIndent = 2`, the block `  $$` / (empty
    line) / `  $$` succeeds, advancing the line cursor, even though the
    middle line's indent 0 is below the structural indent level. -/
theorem blockUnderindentBlankLine_counterexample :
    exC5.blkIndent = 2 ∧ exC5.tShift.getD 1 0 = 0
    ∧ (parseBlockKatex exC5 0 3 '$').1 = true
    ∧ (parseBlockKatex exC5 0 3 '$').2.line = 3 := by
  refine ⟨by decide, by decide, by decide, by decide⟩

/-- C4 counterexample: constructing the plugin with the empty-string
    delimiter option (length 0, not 1) does not raise: the falsy option
    falls back to the default dollar delimiter, and setup succeeds. -/
theorem rkatexEmptyDelimiter_counterexample :
    rkatexDelimiter (some { delimiter := some [], useTailwind := false })
      = Except.ok (['$']) := by
  rfl

/-- C4 (amended): construction fails for every delimiter option of length
    2 or more; a single-character option is accepted as given; an absent
    or empty (falsy) delimiter option does not fail but silently falls
    back to the default dollar delimiter. -/
theorem rkatexDelimiterValidation (s : List Char) (b : Bool) :
    (2 ≤ s.length →
      rkatexDelimiter (some { delimiter := some s, useTailwind := b })
        = Except.error SetupError.invalidDelimiter)
    ∧ (s.length = 1 →
      rkatexDelimiter (some { delimiter := some s, useTailwind := b }) = Except.ok s)
    ∧ rkatexDelimiter (some { delimiter := none, useTailwind := b }) = Except.ok (['$'])
    ∧ rkatexDelimiter none = Except.ok (['$']) := by
  refine ⟨?_, ?_, by rfl, by rfl⟩
  · intro h
    have hne : s ≠ [] := by
      intro he
      subst he
      simp at h
    simp only [rkatexDelimiter]
    rw [if_neg hne, if_pos (by omega)]
  · intro h
    have hne : s ≠ [] := by
      intro he
      subst he
      simp at h
    simp only [rkatexDelimiter]
    rw [if_neg hne, if_neg (by omega)]

theorem rkatexDelimiterValidation_witness :
    2 ≤ (("ab").toList).length
    ∧ rkatexDelimiter (some { delimiter := some (("ab").toList), useTailwind := false })
        = Except.error SetupError.invalidDelimiter
    ∧ rkatexDelimiter (some { delimiter := some (['@']), useTailwind := false })
        = Except.ok (['@']) :=
  ⟨by decide,
   (rkatexDelimiterValidation (("ab").toList) false).1 (by decide),
   (rkatexDelimiterValidation (['@']) false).2.1 (by decide)⟩

/-- C7: `processAriaHidden` is not idempotent.  On a matched tag carrying
    two class attributes, the first application removes only the first
    class attribute (the lookup runs over the concatenated attribute text
    but the rewrite targets the first occurrence in the whole match), so
    the second application still finds and rewrites the remaining
    `inline`-bearing class attribute: the outputs of one and two
    applications differ. -/
theorem processAriaHiddenNotIdempotent :
    processAriaHidden exC7 { useTailwind := false }
        = ("<span class=\"inline x\" aria-hidden=\"true\" style=\"display:none\">").toList
    ∧ processAriaHidden (processAriaHidden exC7 { useTailwind := false })
          { useTailwind := false }
        = ("<span class=\"x\" aria-hidden=\"true\" style=\"display:none\">").toList
    ∧ processAriaHidden (processAriaHidden exC7 { useTailwind := false })
          { useTailwind := false }
      ≠ processAriaHidden exC7 { useTailwind := false } := by
  refine ⟨by decide, by decide, by decide⟩

/-- C8: the class-list rewrite can miss the matched tag's class attribute:
    the tag `exC8` carries `class="inline"`, but because the text
    `class='inline'` also occurs inside the earlier `data-x` attribute
    value, the removal hits that occurrence instead, and the output keeps
    the element's own `class="inline"` intact (contradicting the source's
    stated intent of removing the `inline` token from the class list).
    On the specification's exemplar, with a single class attribute, the
    rewrite works as claimed. -/
theorem processAriaHiddenMisplacedClassRemoval :
    processAriaHidden exC8 { useTailwind := false }
        = ("<span data-x=\"\" aria-hidden=\"true\" class=\"inline\" style=\"display:none\">").toList
    ∧ hasSub (("class=\"inline\"").toList) (processAriaHidden exC8 { useTailwind := false }) = true
    ∧ processAriaHidden exC8ok { useTailwind := false }
        = ("<span class=\"foo\" aria-hidden=\"true\" style=\"display:none\">").toList := by
  refine ⟨by decide, by decide, by decide⟩

/-- C9: the shipped normalizer accepts a configuration argument but never
    reads it: for every input and any two configurations (in particular
    `useTailwind` true vs. false) the outputs are identical. -/
theorem processAriaHiddenIgnoresConfig (html : List Char) (c1 c2 : StylingConfig) :
    processAriaHidden html c1 = processAriaHidden html c2 := rfl
